import Mathlib

/-!
Verification development for the YOLO image review application
(src/app.py).  The label decoder, the annotator class-name
resolution and the review queue state machine are embedded as
executable Lean definitions; numeric fields of label files are
modelled as rationals and Python int() truncation as truncation
toward zero.
-/

/-- Characters treated as whitespace by Python str.split and
str.strip with no arguments (the default whitespace set restricted
to the characters that can occur in label files). -/
def isPySpace (c : Char) : Bool :=
  c = ' ' || c = '\t' || c = '\n' || c = '\r' || c = '\x0b' || c = '\x0c'

/-- Helper for pySplitlines: walks the character list, splitting at
line terminators, with the current (reversed) line as accumulator. -/
def pySplitlinesAux : List Char → List Char → List String
  | [], cur => if cur = [] then [] else [String.mk cur.reverse]
  | '\n' :: rest, cur => String.mk cur.reverse :: pySplitlinesAux rest []
  | '\r' :: '\n' :: rest, cur => String.mk cur.reverse :: pySplitlinesAux rest []
  | '\r' :: rest, cur => String.mk cur.reverse :: pySplitlinesAux rest []
  | c :: rest, cur => pySplitlinesAux rest (c :: cur)

/-- Model of Python str.splitlines for texts using newline or
carriage-return line terminators: terminators end lines, a final
segment without terminator forms a line only when nonempty, and the
empty string yields no lines. -/
def pySplitlines (s : String) : List String :=
  pySplitlinesAux s.data []

/-- Helper for pyWords: splits at whitespace, dropping empty chunks,
with the current (reversed) word as accumulator. -/
def pyWordsAux : List Char → List Char → List String
  | [], cur => if cur = [] then [] else [String.mk cur.reverse]
  | c :: rest, cur =>
    if isPySpace c then
      if cur = [] then pyWordsAux rest []
      else String.mk cur.reverse :: pyWordsAux rest []
    else pyWordsAux rest (c :: cur)

/-- Model of Python str.split with no separator: splits on runs of
whitespace and never returns empty tokens. -/
def pyWords (s : String) : List String :=
  pyWordsAux s.data []

/-- Model of Python str.strip with no argument: removes leading and
trailing whitespace characters. -/
def pyStrip (s : String) : String :=
  String.mk (((s.data.dropWhile isPySpace).reverse.dropWhile isPySpace).reverse)

/-- Numeric value of a list of decimal digit characters. -/
def digitsNat (cs : List Char) : ℕ :=
  cs.foldl (fun n c => n * 10 + (c.toNat - 48)) 0

/-- Value of a nonempty all-digit character list, failing otherwise. -/
def digitsVal (cs : List Char) : Option ℕ :=
  if cs ≠ [] ∧ cs.all (fun c => c.isDigit) then some (digitsNat cs) else none

/-- Exponent suffix of a Python float literal: empty means exponent 0,
otherwise the letter e or E followed by an optionally signed digit
string. -/
def parseExp : List Char → Option ℤ
  | [] => some 0
  | c :: rest =>
    if c = 'e' ∨ c = 'E' then
      match rest with
      | '+' :: ds => (digitsVal ds).map (fun n => (n : ℤ))
      | '-' :: ds => (digitsVal ds).map (fun n => -(n : ℤ))
      | ds => (digitsVal ds).map (fun n => (n : ℤ))
    else none

/-- Unsigned part of a Python float literal: digits with an optional
fractional part, or a leading dot with digits, then an optional
exponent.  The value is exact as a rational. -/
def parseUnsigned (cs : List Char) : Option ℚ :=
  let intPart := cs.takeWhile (fun c => c.isDigit)
  let rest := cs.dropWhile (fun c => c.isDigit)
  match rest with
  | '.' :: rest2 =>
    let fracPart := rest2.takeWhile (fun c => c.isDigit)
    let rest3 := rest2.dropWhile (fun c => c.isDigit)
    if intPart = [] ∧ fracPart = [] then none
    else (parseExp rest3).map fun e =>
      ((digitsNat intPart : ℚ) + (digitsNat fracPart : ℚ) / (10 : ℚ) ^ fracPart.length)
        * (10 : ℚ) ^ e
  | _ =>
    if intPart = [] then none
    else (parseExp rest).map fun e => (digitsNat intPart : ℚ) * (10 : ℚ) ^ e

/-- Model of Python float() on whitespace-free tokens, over exact
rationals: an optional sign followed by a decimal literal with
optional fraction and exponent.  IEEE special values (inf, nan) and
underscore digit separators are outside this rational model; no
label-file claim involves them. -/
def pyFloat (s : String) : Option ℚ :=
  match s.data with
  | '+' :: rest => parseUnsigned rest
  | '-' :: rest => (parseUnsigned rest).map Neg.neg
  | cs => parseUnsigned cs

/-- Truncation toward zero, the behavior of Python int() on a float:
floor for nonnegative values, ceiling for negative ones. -/
def ratTrunc (q : ℚ) : ℤ :=
  if 0 ≤ q then ⌊q⌋ else ⌈q⌉

/-- Parsing of one label line, from app.py line 24:
class_id, x, y, w, h = map(float, line.strip().split()).  Exactly five
whitespace-separated tokens are required and every token must parse as
a float; anything else raises, modelled by none. -/
def parseLine (line : String) : Option (ℚ × ℚ × ℚ × ℚ × ℚ) :=
  match pyWords (pyStrip line) with
  | [a, b, c, d, e] =>
    match pyFloat a, pyFloat b, pyFloat c, pyFloat d, pyFloat e with
    | some qa, some qb, some qc, some qd, some qe => some (qa, qb, qc, qd, qe)
    | _, _, _, _, _ => none
  | _ => none

/-- Pixel rectangle computed from one parsed line, from app.py
lines 25 to 32: scale center and size by the image dimensions, then
truncate the corner coordinates toward zero. -/
def decodeBox (x y w h W H : ℚ) : ℤ × ℤ × ℤ × ℤ :=
  let xp := x * W
  let yp := y * H
  let wp := w * W
  let hp := h * H
  (ratTrunc (xp - wp / 2), ratTrunc (yp - hp / 2),
   ratTrunc (xp + wp / 2), ratTrunc (yp + hp / 2))

/-- Loop body of load_yolo_labels, app.py lines 23 to 34: walks the
lines, appending one box and one class per line, and propagates a
parse failure of any line as failure of the whole call. -/
def loadAux (W H : ℚ) : List String → List (ℤ × ℤ × ℤ × ℤ) → List ℤ →
    Option (List (ℤ × ℤ × ℤ × ℤ) × List ℤ)
  | [], boxes, classes => some (boxes, classes)
  | line :: rest, boxes, classes =>
    match parseLine line with
    | none => none
    | some (cid, x, y, w, h) =>
      loadAux W H rest (boxes ++ [decodeBox x y w h W H]) (classes ++ [ratTrunc cid])

/-- Embedding of load_yolo_labels (app.py lines 20 to 35): decode a
label text against the image dimensions, producing the parallel lists
of pixel boxes and integer class ids. -/
def load_yolo_labels (label_content : String) (img_width img_height : ℚ) :
    Option (List (ℤ × ℤ × ℤ × ℤ) × List ℤ) :=
  loadAux img_width img_height (pySplitlines label_content) [] []

/-- Decoded label record as the spec describes it: an integer class id
and an integer-cornered pixel rectangle. -/
structure LabelRecord where
  classId : ℤ
  x1 : ℤ
  y1 : ℤ
  x2 : ℤ
  y2 : ℤ
deriving DecidableEq

/-- Reference decoding of one line, written from the spec text: x1 =
trunc(xCenter*W - width*W/2), y1 = trunc(yCenter*H - height*H/2),
x2 = trunc(xCenter*W + width*W/2), y2 = trunc(yCenter*H + height*H/2),
with truncation toward zero, and classId truncated from float to
integer. -/
def specLine (W H : ℚ) (line : String) : Option LabelRecord :=
  (parseLine line).map fun t =>
    { classId := ratTrunc t.1
      x1 := ratTrunc (t.2.1 * W - t.2.2.2.1 * W / 2)
      y1 := ratTrunc (t.2.2.1 * H - t.2.2.2.2 * H / 2)
      x2 := ratTrunc (t.2.1 * W + t.2.2.2.1 * W / 2)
      y2 := ratTrunc (t.2.2.1 * H + t.2.2.2.2 * H / 2) }

/-- Reference decoder, written from the spec text: one record per
line, in input line order, failing as a whole when any line fails. -/
def specLines (W H : ℚ) : List String → Option (List LabelRecord)
  | [] => some []
  | line :: rest =>
    match specLine W H line with
    | none => none
    | some r =>
      match specLines W H rest with
      | none => none
      | some rs => some (r :: rs)

/-- Reference decoder over a whole label text (spec section 4.1). -/
def decodeSpec (content : String) (W H : ℚ) : Option (List LabelRecord) :=
  specLines W H (pySplitlines content)

/-- Rectangle tuple of a reference record, for comparison with the
pair-of-lists result of load_yolo_labels. -/
def recBox (r : LabelRecord) : ℤ × ℤ × ℤ × ℤ :=
  (r.x1, r.y1, r.x2, r.y2)

/-- Reconstruction of normalized center, width and height from a pixel
rectangle, as described by the round-trip property in the spec
(section 8): center is the midpoint over the image dimension, size is
the side length over the image dimension. -/
def reencode (b : ℤ × ℤ × ℤ × ℤ) (W H : ℚ) : ℚ × ℚ × ℚ × ℚ :=
  (((b.1 : ℚ) + (b.2.2.1 : ℚ)) / 2 / W,
   ((b.2.1 : ℚ) + (b.2.2.2 : ℚ)) / 2 / H,
   ((b.2.2.1 : ℚ) - (b.1 : ℚ)) / W,
   ((b.2.2.2 : ℚ) - (b.2.1 : ℚ)) / H)

/-- Python list indexing on a list of strings: nonnegative indices
count from the front, negative indices count from the back, and an
index out of range on either side raises, modelled by none. -/
def pyListGet (l : List String) (i : ℤ) : Option String :=
  let j : ℤ := if i < 0 then i + l.length else i
  if 0 ≤ j ∧ j < (l.length : ℤ) then l.get? j.toNat else none

/-- Class-name resolution of draw_boxes, app.py line 45:
class_names[class_id] if class_names and class_id < len(class_names)
else a synthesized name.  The none result models the IndexError that
Python raises when the indexing itself fails. -/
def resolveClassName (class_names : List String) (class_id : ℤ) : Option String :=
  if class_names ≠ [] ∧ class_id < (class_names.length : ℤ) then
    pyListGet class_names class_id
  else some ("Class " ++ toString class_id)

/-- Base of a filename without its extension, the Python
os.path.splitext convention: split at the last dot, except that a dot
leading the whole name does not start an extension. -/
def splitextBase (s : String) : String :=
  let rev := s.data.reverse
  let ext := rev.takeWhile (fun c => c ≠ '.')
  if ext.length = rev.length then s
  else if ext.length + 1 = rev.length then s
  else String.mk ((rev.drop (ext.length + 1)).reverse)

/-- Review queue session state, app.py session keys images and
current_index: the ordered filenames still to review and the cursor
into them. -/
structure QueueState where
  images : List String
  current_index : ℕ
deriving DecidableEq

/-- Successful submit path of the Submit Validation handler, app.py
lines 196 to 201: remove the current item, then reset the cursor to 0
when the queue became empty, otherwise reduce it modulo the new
length. -/
def popCurrent (st : QueueState) : QueueState :=
  let images2 := st.images.eraseIdx st.current_index
  if images2 = [] then ⟨images2, 0⟩
  else ⟨images2, st.current_index % images2.length⟩

/-- Outcome of a submit: ok carries the state after the queue
mutation, failed carries the state left behind when a file write
raised before any queue mutation. -/
inductive SubmitResult where
  | ok (st : QueueState)
  | failed (st : QueueState)
deriving DecidableEq

/-- Submit Validation handler, app.py lines 184 to 202, with the
outcome of each file write made explicit: the image bytes are written
first, then the label bytes when a label is paired; only after both
writes succeed is the queue mutated.  A write failure raises, leaving
the session state exactly as it was. -/
def submitDecision (hasLabel imgOk labelOk : Bool) (st : QueueState) : SubmitResult :=
  if imgOk = false then .failed st
  else if hasLabel = true ∧ labelOk = false then .failed st
  else .ok (popCurrent st)

/-- User actions that mutate the review queue: Load Files enqueue of
one filename, Previous and Next navigation, and Submit Validation with
the write outcomes of its persistence step. -/
inductive QOp where
  | enqueue (name : String)
  | advance (forward : Bool)
  | submit (hasLabel imgOk labelOk : Bool)
deriving DecidableEq

/-- One queue transition.  Enqueue (app.py lines 117 to 123) appends
only when the filename is not already present.  Advance (lines 145 to
151) moves the cursor by one modulo the length, with Python semantics
of the percent operator on a possibly negative left operand; the
buttons are unreachable when the queue is empty (line 137 returns
first), modelled as a no-op.  Submit (lines 184 to 202) is likewise
unreachable on an empty queue and takes whichever state its outcome
carries, since a raise leaves the session state untouched. -/
def stepOp (st : QueueState) : QOp → QueueState
  | .enqueue name =>
    if name ∈ st.images then st else ⟨st.images ++ [name], st.current_index⟩
  | .advance fwd =>
    if st.images = [] then st
    else ⟨st.images,
      ((((st.current_index : ℤ) + if fwd then 1 else -1) % (st.images.length : ℤ)).toNat)⟩
  | .submit hasLabel imgOk labelOk =>
    if st.images = [] then st
    else
      match submitDecision hasLabel imgOk labelOk st with
      | .ok st2 => st2
      | .failed st2 => st2

/-- Queue state reached from the initial empty session (app.py lines
87 to 92) by a sequence of user actions. -/
def runOps (ops : List QOp) : QueueState :=
  ops.foldl stepOp ⟨[], 0⟩

/-- Cursor invariant of the review queue: the cursor is inside the
queue whenever the queue is nonempty, and parked at 0 when it is
empty. -/
def QInv (st : QueueState) : Prop :=
  (st.images = [] → st.current_index = 0) ∧
  (st.images ≠ [] → st.current_index < st.images.length)
/-- Re-decoding of the normalized values reconstructed from a pixel
rectangle, the composite the round-trip property speaks about. -/
def redecode (b : ℤ × ℤ × ℤ × ℤ) (W H : ℚ) : ℤ × ℤ × ℤ × ℤ :=
  decodeBox (reencode b W H).1 (reencode b W H).2.1
    (reencode b W H).2.2.1 (reencode b W H).2.2.2 W H

lemma loadAux_eq_specLines (W H : ℚ) (lines : List String) :
    ∀ (bs : List (ℤ × ℤ × ℤ × ℤ)) (cs : List ℤ),
      loadAux W H lines bs cs =
        (specLines W H lines).map fun rs =>
          (bs ++ rs.map recBox, cs ++ rs.map LabelRecord.classId) := by
  induction lines with
  | nil => intro bs cs; simp [loadAux, specLines]
  | cons line rest ih =>
    intro bs cs
    cases hp : parseLine line with
    | none => simp [loadAux, specLines, specLine, hp]
    | some t =>
      obtain ⟨cid, x, y, w, h⟩ := t
      simp only [loadAux, hp, specLines, specLine, Option.map_some]
      rw [ih]
      cases hs : specLines W H rest <;>
        simp [hs, recBox, decodeBox]

/-- C1: the decoder agrees with its reference definition from the
spec: one record per line in input order with corners
trunc(center*dim plus or minus size*dim/2) and truncated class id;
empty input yields the empty result, and the concrete scenario decodes
as stated. -/
theorem C1_decoder_matches_reference :
    (∀ (content : String) (W H : ℚ), load_yolo_labels content W H =
        (decodeSpec content W H).map fun rs => (rs.map recBox, rs.map LabelRecord.classId))
    ∧ (∀ W H : ℚ, load_yolo_labels "" W H = some ([], []))
    ∧ load_yolo_labels "0 0.5 0.5 0.2 0.4" 100 100 = some ([(40, 30, 60, 70)], [0]) := by
  refine ⟨?_, ?_, ?_⟩
  · intro content W H
    rw [load_yolo_labels, decodeSpec, loadAux_eq_specLines]
    cases specLines W H (pySplitlines content) <;> simp
  · intro W H; rfl
  · have hline : pySplitlines "0 0.5 0.5 0.2 0.4" = ["0 0.5 0.5 0.2 0.4"] := by decide
    have htoks : pyWords (pyStrip "0 0.5 0.5 0.2 0.4") = ["0", "0.5", "0.5", "0.2", "0.4"] := by
      decide
    have d0 : digitsNat ['0'] = 0 := by decide
    have d5 : digitsNat ['5'] = 5 := by decide
    have d2 : digitsNat ['2'] = 2 := by decide
    have d4 : digitsNat ['4'] = 4 := by decide
    have h0 : pyFloat "0" = some ((digitsNat ['0'] : ℚ) * (10 : ℚ) ^ (0 : ℤ)) := rfl
    have h05 : pyFloat "0.5" =
        some (((digitsNat ['0'] : ℚ) + (digitsNat ['5'] : ℚ) / (10 : ℚ) ^ (1 : ℕ))
          * (10 : ℚ) ^ (0 : ℤ)) := rfl
    have h02 : pyFloat "0.2" =
        some (((digitsNat ['0'] : ℚ) + (digitsNat ['2'] : ℚ) / (10 : ℚ) ^ (1 : ℕ))
          * (10 : ℚ) ^ (0 : ℤ)) := rfl
    have h04 : pyFloat "0.4" =
        some (((digitsNat ['0'] : ℚ) + (digitsNat ['4'] : ℚ) / (10 : ℚ) ^ (1 : ℕ))
          * (10 : ℚ) ^ (0 : ℤ)) := rfl
    have e0 : pyFloat "0" = some (0 : ℚ) := by rw [h0, d0]; norm_num
    have e05 : pyFloat "0.5" = some (1/2 : ℚ) := by rw [h05, d0, d5]; norm_num
    have e02 : pyFloat "0.2" = some (1/5 : ℚ) := by rw [h02, d0, d2]; norm_num
    have e04 : pyFloat "0.4" = some (2/5 : ℚ) := by rw [h04, d0, d4]; norm_num
    have hparse : parseLine "0 0.5 0.5 0.2 0.4" = some (0, 1/2, 1/2, 1/5, 2/5) := by
      simp only [parseLine, htoks, e0, e05, e02, e04]
    have hbox : decodeBox (1/2) (1/2) (1/5) (2/5) 100 100 = (40, 30, 60, 70) := by
      simp only [decodeBox]
      norm_num [ratTrunc, Prod.mk.injEq]
    have hcid : ratTrunc (0 : ℚ) = 0 := by norm_num [ratTrunc]
    rw [load_yolo_labels, hline]
    simp only [loadAux, hparse, hbox, hcid]
    simp

lemma parseLine_eq_none (line : String)
    (h : (pyWords (pyStrip line)).length ≠ 5 ∨
      ∃ tok ∈ pyWords (pyStrip line), pyFloat tok = none) :
    parseLine line = none := by
  unfold parseLine
  split
  · rename_i a b c d e hw
    rcases h with h | ⟨tok, htok, hnone⟩
    · rw [hw] at h; simp at h
    · rw [hw] at htok
      split
      · rename_i qa qb qc qd qe ha hb hc hd he
        simp only [List.mem_cons, List.not_mem_nil, or_false] at htok
        rcases htok with rfl | rfl | rfl | rfl | rfl <;> simp_all
      · rfl
  · rfl

lemma loadAux_none (W H : ℚ) (lines : List String) :
    ∀ (bs : List (ℤ × ℤ × ℤ × ℤ)) (cs : List ℤ),
      (∃ line ∈ lines, parseLine line = none) →
      loadAux W H lines bs cs = none := by
  induction lines with
  | nil => intro bs cs h; simp at h
  | cons l rest ih =>
    intro bs cs h
    obtain ⟨line, hmem, hnone⟩ := h
    rcases List.mem_cons.mp hmem with rfl | hmem2
    · simp [loadAux, hnone]
    · cases hp : parseLine l with
      | none => simp [loadAux, hp]
      | some t =>
        obtain ⟨cid, x, y, w, h⟩ := t
        simp only [loadAux, hp]
        exact ih _ _ ⟨line, hmem2, hnone⟩

/-- C5: strict parse policy: any line with a wrong token count or a
token that does not parse as a float fails the whole decode call, and
in particular a four-field line fails the decode. -/
theorem C5_strict_parse (content : String) (W H : ℚ)
    (h : ∃ line ∈ pySplitlines content,
      (pyWords (pyStrip line)).length ≠ 5 ∨
        ∃ tok ∈ pyWords (pyStrip line), pyFloat tok = none) :
    load_yolo_labels content W H = none := by
  obtain ⟨line, hmem, hbad⟩ := h
  exact loadAux_none W H _ [] [] ⟨line, hmem, parseLine_eq_none line hbad⟩

/-- Witness for C5 at a concrete input: a text whose second line has
only four fields fails, and a text with a non-numeric token fails. -/
theorem C5_strict_parse_witness :
    load_yolo_labels "0 0.5 0.5 0.2 0.4\n0 0.5 0.5 0.2" 100 100 = none ∧
    load_yolo_labels "0 0.5 0.5 bad 0.4" 100 100 = none := by
  constructor
  · exact C5_strict_parse _ 100 100 ⟨"0 0.5 0.5 0.2", by decide, Or.inl (by decide)⟩
  · exact C5_strict_parse _ 100 100
      ⟨"0 0.5 0.5 bad 0.4", by decide, Or.inr ⟨"bad", by decide, by decide⟩⟩

lemma pyWordsAux_all_space (cs : List Char) (h : ∀ c ∈ cs, isPySpace c = true) :
    pyWordsAux cs [] = [] := by
  induction cs with
  | nil => rfl
  | cons c rest ih =>
    have hc : isPySpace c = true := h c (List.mem_cons_self c rest)
    simp only [pyWordsAux, hc, if_true, if_pos rfl]
    exact ih fun x hx => h x (List.mem_cons_of_mem c hx)

lemma pyStrip_all_space (s : String) (h : ∀ c ∈ s.data, isPySpace c = true) :
    ∀ c ∈ (pyStrip s).data, isPySpace c = true := by
  intro c hc
  unfold pyStrip at hc
  simp only [String.data] at hc
  have h1 : c ∈ (s.data.dropWhile isPySpace).reverse.dropWhile isPySpace := by
    exact List.mem_reverse.mp hc
  have h2 : c ∈ s.data := by
    have := (List.dropWhile_sublist (l := (s.data.dropWhile isPySpace).reverse)
      (p := isPySpace)).subset h1
    have := List.mem_reverse.mp this
    exact (List.dropWhile_sublist (l := s.data) (p := isPySpace)).subset this
  exact h c h2

/-- C10: a label text containing an empty or whitespace-only line
fails the whole decode call, because the blank line splits to zero
tokens. -/
theorem C10_blank_line_fails (content : String) (W H : ℚ)
    (h : ∃ line ∈ pySplitlines content, ∀ c ∈ line.data, isPySpace c = true) :
    load_yolo_labels content W H = none := by
  obtain ⟨line, hmem, hsp⟩ := h
  have hwords : pyWords (pyStrip line) = [] := by
    unfold pyWords
    exact pyWordsAux_all_space _ (pyStrip_all_space line hsp)
  refine loadAux_none W H _ [] [] ⟨line, hmem, parseLine_eq_none line (Or.inl ?_)⟩
  rw [hwords]; simp

/-- Witness for C10 at a concrete input: a well-formed line followed
by a whitespace-only line and another well-formed line fails. -/
theorem C10_blank_line_fails_witness :
    load_yolo_labels "0 0.5 0.5 0.2 0.4\n \n0 0.5 0.5 0.2 0.4" 100 100 = none := by
  exact C10_blank_line_fails _ 100 100 ⟨" ", by decide, by decide⟩

lemma ratTrunc_intCast (n : ℤ) : ratTrunc (n : ℚ) = n := by
  unfold ratTrunc
  split
  · exact Int.floor_intCast n
  · exact Int.ceil_intCast n

lemma roundtrip_coords (a b : ℤ) (W : ℚ) (hW : W ≠ 0) :
    ratTrunc ((((a : ℚ) + (b : ℚ)) / 2 / W) * W - (((b : ℚ) - (a : ℚ)) / W) * W / 2) = a ∧
    ratTrunc ((((a : ℚ) + (b : ℚ)) / 2 / W) * W + (((b : ℚ) - (a : ℚ)) / W) * W / 2) = b := by
  rw [div_mul_cancel₀ _ hW, div_mul_cancel₀ _ hW]
  constructor
  · have h : ((a : ℚ) + (b : ℚ)) / 2 - ((b : ℚ) - (a : ℚ)) / 2 = (a : ℚ) := by ring
    rw [h, ratTrunc_intCast]
  · have h : ((a : ℚ) + (b : ℚ)) / 2 + ((b : ℚ) - (a : ℚ)) / 2 = (b : ℚ) := by ring
    rw [h, ratTrunc_intCast]

lemma redecode_exact (p : ℤ × ℤ × ℤ × ℤ) (W H : ℚ) (hW : W ≠ 0) (hH : H ≠ 0) :
    redecode p W H = p := by
  obtain ⟨x1, y1, x2, y2⟩ := p
  have hx := roundtrip_coords x1 x2 W hW
  have hy := roundtrip_coords y1 y2 H hH
  simp only [redecode, reencode, decodeBox, Prod.mk.injEq]
  exact ⟨hx.1, hy.1, hx.2, hy.2⟩

/-- C8: decoding a valid normalized line to a pixel rectangle,
reconstructing center, width and height from that rectangle and
re-decoding recovers every coordinate exactly, hence within the one
pixel bound the truncation induces. -/
theorem C8_roundtrip (xc yc wd ht W H : ℚ) (hW : W ≠ 0) (hH : H ≠ 0) :
    redecode (decodeBox xc yc wd ht W H) W H = decodeBox xc yc wd ht W H ∧
    |(redecode (decodeBox xc yc wd ht W H) W H).1 - (decodeBox xc yc wd ht W H).1| ≤ 1 ∧
    |(redecode (decodeBox xc yc wd ht W H) W H).2.1 - (decodeBox xc yc wd ht W H).2.1| ≤ 1 ∧
    |(redecode (decodeBox xc yc wd ht W H) W H).2.2.1 - (decodeBox xc yc wd ht W H).2.2.1| ≤ 1 ∧
    |(redecode (decodeBox xc yc wd ht W H) W H).2.2.2 - (decodeBox xc yc wd ht W H).2.2.2| ≤ 1 := by
  have h := redecode_exact (decodeBox xc yc wd ht W H) W H hW hH
  refine ⟨h, ?_, ?_, ?_, ?_⟩ <;> rw [h] <;> simp

/-- Witness for C8 at the concrete scenario line against a 100 by 100
image. -/
theorem C8_roundtrip_witness :
    redecode (decodeBox (1/2) (1/2) (1/5) (2/5) 100 100) 100 100
      = decodeBox (1/2) (1/2) (1/5) (2/5) 100 100 :=
  (C8_roundtrip (1/2) (1/2) (1/5) (2/5) 100 100 (by norm_num) (by norm_num)).1

lemma QInv_popCurrent (st : QueueState) : QInv (popCurrent st) := by
  unfold popCurrent QInv
  by_cases he : st.images.eraseIdx st.current_index = []
  · simp [he]
  · simp only [he, if_neg he]
    constructor
    · intro h; exact absurd h he
    · intro _
      exact Nat.mod_lt _ (List.length_pos.mpr he)

lemma stepOp_preserves_QInv (st : QueueState) (op : QOp) (h : QInv st) :
    QInv (stepOp st op) := by
  obtain ⟨h0, h1⟩ := h
  cases op with
  | enqueue name =>
    by_cases hmem : name ∈ st.images
    · have hst : stepOp st (.enqueue name) = st := by simp [stepOp, hmem]
      rw [hst]; exact ⟨h0, h1⟩
    · simp only [stepOp, if_neg hmem]
      refine ⟨fun h => by simp at h, fun _ => ?_⟩
      dsimp only
      simp only [List.length_append, List.length_cons, List.length_nil]
      rcases eq_or_ne st.images [] with he | he
      · have := h0 he; omega
      · have := h1 he; omega
  | advance fwd =>
    by_cases he : st.images = []
    · have hst : stepOp st (.advance fwd) = st := by simp [stepOp, he]
      rw [hst]; exact ⟨h0, h1⟩
    · have hL : (0 : ℤ) < (st.images.length : ℤ) := by
        exact_mod_cast List.length_pos.mpr he
      have h0m : 0 ≤ ((st.current_index : ℤ) + (if fwd then 1 else -1)) %
          (st.images.length : ℤ) := Int.emod_nonneg _ hL.ne'
      have hlt : ((st.current_index : ℤ) + (if fwd then 1 else -1)) %
          (st.images.length : ℤ) < (st.images.length : ℤ) :=
        Int.emod_lt_of_pos _ hL
      simp only [stepOp, if_neg he]
      refine ⟨fun h => absurd h he, fun _ => ?_⟩
      dsimp only
      omega
  | submit hasLabel imgOk labelOk =>
    by_cases he : st.images = []
    · have hst : stepOp st (.submit hasLabel imgOk labelOk) = st := by simp [stepOp, he]
      rw [hst]; exact ⟨h0, h1⟩
    · have hpop := QInv_popCurrent st
      cases imgOk with
      | false =>
        have hst : stepOp st (.submit hasLabel false labelOk) = st := by
          simp [stepOp, he, submitDecision]
        rw [hst]; exact ⟨h0, h1⟩
      | true =>
        cases hasLabel with
        | false =>
          have hst : stepOp st (.submit false true labelOk) = popCurrent st := by
            simp [stepOp, he, submitDecision]
          rw [hst]; exact hpop
        | true =>
          cases labelOk with
          | false =>
            have hst : stepOp st (.submit true true false) = st := by
              simp [stepOp, he, submitDecision]
            rw [hst]; exact ⟨h0, h1⟩
          | true =>
            have hst : stepOp st (.submit true true true) = popCurrent st := by
              simp [stepOp, he, submitDecision]
            rw [hst]; exact hpop

/-- C2: after any finite sequence of enqueue, advance and submit
operations starting from the empty queue, the cursor is strictly
inside the queue whenever the queue is nonempty, and equals 0 whenever
the queue is empty (it is a natural number, so nonnegative by
construction). -/
theorem C2_queue_invariant (ops : List QOp) : QInv (runOps ops) := by
  have base : QInv ⟨[], 0⟩ := ⟨fun _ => rfl, fun h => absurd rfl h⟩
  rw [runOps]
  have main : ∀ (l : List QOp) (st : QueueState), QInv st → QInv (l.foldl stepOp st) := by
    intro l
    induction l with
    | nil => intro st h; exact h
    | cons op rest ih =>
      intro st h
      exact ih (stepOp st op) (stepOp_preserves_QInv st op h)
  exact main ops ⟨[], 0⟩ base

/-- Witness for C2 on a concrete operation sequence. -/
theorem C2_queue_invariant_witness :
    (runOps [QOp.enqueue "a.jpg", QOp.advance true]).images ≠ [] ∧
    (runOps [QOp.enqueue "a.jpg", QOp.advance true]).current_index <
      (runOps [QOp.enqueue "a.jpg", QOp.advance true]).images.length :=
  ⟨by decide, (C2_queue_invariant _).2 (by decide)⟩

/-- C3: submitDecision is atomic with respect to queue state: when a
file write fails (the image write, or the label write when a label is
paired), the operation reports failure carrying the queue state
exactly as it was, with the current item still present and the cursor
untouched. -/
theorem C3_submit_atomic (hasLabel imgOk labelOk : Bool) (st : QueueState)
    (_hne : st.images ≠ [])
    (hfail : imgOk = false ∨ (hasLabel = true ∧ labelOk = false)) :
    submitDecision hasLabel imgOk labelOk st = .failed st := by
  rcases hfail with h | ⟨h1, h2⟩
  · simp [submitDecision, h]
  · subst h1; subst h2; cases imgOk <;> simp [submitDecision]

/-- Witness for C3: a failing image write on a one-item queue. -/
theorem C3_submit_atomic_witness :
    submitDecision true false true ⟨["a.jpg"], 0⟩ = .failed ⟨["a.jpg"], 0⟩ :=
  C3_submit_atomic true false true ⟨["a.jpg"], 0⟩ (by decide) (Or.inl rfl)

/-- C4: a successful submit on a queue of length n with cursor i
removes exactly the item at index i, keeps the others in their
relative order, and sets the cursor to i mod (n-1) when n > 1 and to 0
otherwise; in particular [A, B, C] with cursor 1 becomes [A, C] with
cursor 1. -/
theorem C4_submit_removes_current :
    (∀ (hasLabel : Bool) (items : List String) (i : ℕ), i < items.length →
      submitDecision hasLabel true true ⟨items, i⟩ =
        .ok ⟨items.take i ++ items.drop (i + 1),
          if items.length = 1 then 0 else i % (items.length - 1)⟩)
    ∧ submitDecision true true true ⟨["A", "B", "C"], 1⟩ = .ok ⟨["A", "C"], 1⟩ := by
  constructor
  · intro hasLabel items i hi
    have herase : items.eraseIdx i = items.take i ++ items.drop (i + 1) :=
      List.eraseIdx_eq_take_drop_succ items i
    have hlen : (items.eraseIdx i).length = items.length - 1 := by
      rw [herase]
      simp only [List.length_append, List.length_take, List.length_drop]
      omega
    have hsub : submitDecision hasLabel true true ⟨items, i⟩ =
        .ok (popCurrent ⟨items, i⟩) := by
      cases hasLabel <;> simp [submitDecision]
    rw [hsub]
    have hpop : popCurrent ⟨items, i⟩ =
        ⟨items.take i ++ items.drop (i + 1),
          if items.length = 1 then 0 else i % (items.length - 1)⟩ := by
      unfold popCurrent
      dsimp only
      by_cases hone : items.length = 1
      · have hnil : items.eraseIdx i = [] := by
          have := hlen; rw [hone] at this
          exact List.eq_nil_of_length_eq_zero (by omega)
        rw [if_pos hnil, hnil, ← herase, hnil]
        simp [hone]
      · have hne : items.eraseIdx i ≠ [] := by
          intro hcontra
          have := hlen
          rw [hcontra] at this
          simp at this
          omega
        rw [if_neg hne, herase, ← herase, hlen]
        simp [hone, herase]
    rw [hpop]
  · decide

/-- Witness for C4 on the scenario queue. -/
theorem C4_submit_removes_current_witness :
    submitDecision false true true ⟨["A", "B", "C"], 1⟩ =
      .ok ⟨(["A", "B", "C"] : List String).take 1 ++ (["A", "B", "C"] : List String).drop 2,
        if (["A", "B", "C"] : List String).length = 1 then 0
        else 1 % ((["A", "B", "C"] : List String).length - 1)⟩ :=
  C4_submit_removes_current.1 false ["A", "B", "C"] 1 (by decide)

/-- C7 counterexample: the queue deduplicates by full filename, not by
extension-stripped base name: img1.png has the same base name as the
already present img1.jpg, yet enqueueing it changes the queue. -/
theorem C7_enqueue_counterexample :
    splitextBase "img1.png" = splitextBase "img1.jpg" ∧
    splitextBase "img1.png" ∈ (["img1.jpg"] : List String).map splitextBase ∧
    stepOp ⟨["img1.jpg"], 0⟩ (.enqueue "img1.png") ≠ ⟨["img1.jpg"], 0⟩ := by
  refine ⟨by decide, by decide, by decide⟩

/-- C7 amended: enqueue is idempotent on duplicate full filenames: an
item whose filename (with extension) is already present leaves the
queue unchanged, and enqueueing img1.jpg twice leaves one item. -/
theorem C7_enqueue_dedup_by_filename :
    (∀ (st : QueueState) (name : String), name ∈ st.images →
      stepOp st (.enqueue name) = st)
    ∧ runOps [.enqueue "img1.jpg", .enqueue "img1.jpg"] = ⟨["img1.jpg"], 0⟩ := by
  constructor
  · intro st name h
    simp [stepOp, h]
  · decide

/-- Witness for the amended C7 at a concrete state. -/
theorem C7_enqueue_dedup_witness :
    stepOp ⟨["img1.jpg"], 0⟩ (.enqueue "img1.jpg") = ⟨["img1.jpg"], 0⟩ :=
  C7_enqueue_dedup_by_filename.1 ⟨["img1.jpg"], 0⟩ "img1.jpg" (by decide)

/-- C9: advance keeps the queue and moves the cursor by plus or minus
one modulo the length, landing inside the queue (wrapping at both
ends); on a single-item queue a forward advance leaves the cursor at
0 unchanged. -/
theorem C9_advance_modular :
    (∀ (st : QueueState) (fwd : Bool), st.images ≠ [] →
      (stepOp st (.advance fwd)).images = st.images ∧
      ((stepOp st (.advance fwd)).current_index : ℤ) % (st.images.length : ℤ) =
        ((st.current_index : ℤ) + (if fwd then 1 else -1)) % (st.images.length : ℤ) ∧
      (stepOp st (.advance fwd)).current_index < st.images.length)
    ∧ ∀ (st : QueueState), st.images.length = 1 → st.current_index = 0 →
        stepOp st (.advance true) = st := by
  constructor
  · intro st fwd he
    have hL : (0 : ℤ) < (st.images.length : ℤ) := by
      exact_mod_cast List.length_pos.mpr he
    have h0m : 0 ≤ ((st.current_index : ℤ) + (if fwd then 1 else -1)) %
        (st.images.length : ℤ) := Int.emod_nonneg _ hL.ne'
    have hlt : ((st.current_index : ℤ) + (if fwd then 1 else -1)) %
        (st.images.length : ℤ) < (st.images.length : ℤ) :=
      Int.emod_lt_of_pos _ hL
    simp only [stepOp, if_neg he]
    refine ⟨trivial, ?_, ?_⟩
    · dsimp only
      rw [Int.toNat_of_nonneg h0m]
      exact Int.emod_emod_of_dvd _ dvd_rfl
    · dsimp only
      omega
  · intro st h1 h0
    obtain ⟨imgs, idx⟩ := st
    simp only at h1 h0
    subst h0
    have hne : imgs ≠ [] := by
      intro h; rw [h] at h1; simp at h1
    simp only [stepOp, if_neg hne, h1]
    norm_num

/-- Witness for C9: a two-item queue advances from 0 to 1, and a
single-item queue is unchanged by a forward advance. -/
theorem C9_advance_modular_witness :
    ((stepOp ⟨["a", "b"], 0⟩ (.advance true)).images = ["a", "b"] ∧
      ((stepOp ⟨["a", "b"], 0⟩ (.advance true)).current_index : ℤ) % (2 : ℤ) =
        ((0 : ℤ) + (if true then 1 else -1)) % (2 : ℤ) ∧
      (stepOp ⟨["a", "b"], 0⟩ (.advance true)).current_index < 2) ∧
    stepOp ⟨["a"], 0⟩ (.advance true) = ⟨["a"], 0⟩ :=
  ⟨C9_advance_modular.1 ⟨["a", "b"], 0⟩ true (by decide),
   C9_advance_modular.2 ⟨["a"], 0⟩ rfl rfl⟩

/-- C6 counterexample: with the nonempty catalog [cat, dog] and
classId -1, the code takes the Python negative-indexing branch and
draws the catalog entry dog, not the synthesized text the claim
requires for an invalid index. -/
theorem C6_class_name_counterexample :
    resolveClassName ["cat", "dog"] (-1) = some "dog" ∧
    resolveClassName ["cat", "dog"] (-1) ≠ some ("Class " ++ toString (-1 : ℤ)) := by
  refine ⟨by decide, by decide⟩

/-- C6 amended: for a nonempty catalog, a classId with
0 <= classId < length resolves to the catalog entry at classId; a
negative classId with -length <= classId indexes from the back, Python
style; a classId below -length raises an index error; and an empty
catalog or a classId at or above the length synthesizes the
Class classId text. -/
theorem C6_class_name_resolution :
    (∀ (catalog : List String) (cid : ℤ), catalog ≠ [] → 0 ≤ cid →
      cid < (catalog.length : ℤ) →
      resolveClassName catalog cid = catalog.get? cid.toNat)
    ∧ (∀ (catalog : List String) (cid : ℤ), catalog ≠ [] →
      -(catalog.length : ℤ) ≤ cid → cid < 0 →
      resolveClassName catalog cid = catalog.get? (cid + (catalog.length : ℤ)).toNat)
    ∧ (∀ (catalog : List String) (cid : ℤ), catalog ≠ [] →
      cid < -(catalog.length : ℤ) →
      resolveClassName catalog cid = none)
    ∧ (∀ (catalog : List String) (cid : ℤ),
      (catalog = [] ∨ (catalog.length : ℤ) ≤ cid) →
      resolveClassName catalog cid = some ("Class " ++ toString cid)) := by
  refine ⟨?_, ?_, ?_, ?_⟩
  · intro catalog cid hne h0 hlt
    simp only [resolveClassName, if_pos (And.intro hne hlt), pyListGet]
    rw [if_neg (by omega : ¬cid < 0)]
    rw [if_pos ⟨h0, hlt⟩]
  · intro catalog cid hne hlo hneg
    simp only [resolveClassName,
      if_pos (And.intro hne (by omega : cid < (catalog.length : ℤ))), pyListGet]
    rw [if_pos hneg]
    rw [if_pos (⟨by omega, by omega⟩ :
      0 ≤ cid + (catalog.length : ℤ) ∧ cid + (catalog.length : ℤ) < (catalog.length : ℤ))]
  · intro catalog cid hne hbelow
    have hlen : (0 : ℤ) ≤ (catalog.length : ℤ) := by positivity
    simp only [resolveClassName,
      if_pos (And.intro hne (by omega : cid < (catalog.length : ℤ))), pyListGet]
    rw [if_pos (by omega : cid < 0)]
    rw [if_neg (by omega :
      ¬(0 ≤ cid + (catalog.length : ℤ) ∧ cid + (catalog.length : ℤ) < (catalog.length : ℤ)))]
  · intro catalog cid h
    rcases h with h | h
    · have hcond : ¬(catalog ≠ [] ∧ cid < (catalog.length : ℤ)) := by
        intro hc; exact hc.1 h
      simp only [resolveClassName, if_neg hcond]
    · have hcond : ¬(catalog ≠ [] ∧ cid < (catalog.length : ℤ)) := by
        intro hc; omega
      simp only [resolveClassName, if_neg hcond]

/-- Witness for the amended C6, one concrete instance per case. -/
theorem C6_class_name_resolution_witness :
    resolveClassName ["cat", "dog"] 1 = (["cat", "dog"] : List String).get? (1 : ℤ).toNat ∧
    resolveClassName ["cat", "dog"] (-2) =
      (["cat", "dog"] : List String).get? ((-2 : ℤ) + ((2 : ℕ) : ℤ)).toNat ∧
    resolveClassName ["cat", "dog"] (-3) = none ∧
    resolveClassName [] 7 = some ("Class " ++ toString (7 : ℤ)) :=
  ⟨C6_class_name_resolution.1 ["cat", "dog"] 1 (by decide) (by decide) (by decide),
   C6_class_name_resolution.2.1 ["cat", "dog"] (-2) (by decide) (by norm_num) (by norm_num),
   C6_class_name_resolution.2.2.1 ["cat", "dog"] (-3) (by decide) (by norm_num),
   C6_class_name_resolution.2.2.2 [] 7 (Or.inl rfl)⟩
